import Mathlib

/-!
Shallow embedding of the drain aggregation module (aggregation.py).

The module defines three classes:
  - AggregationBase: generic constructor, run loop and result assembly;
  - SimpleAggregation: one argument per index name;
  - SpacetimeAggregation: arguments over dates x spacedeltas x deltas.

Conventions of the embedding:
  - Python dicts are association lists (List (key x value)); a real Python
    dict has unique keys, which appears as a Nodup hypothesis where needed.
  - pandas DataFrames are a list of rows, each row an association list from
    column name to cell value; cell values, dates, deltas and index names
    are all modelled as strings.
  - Fallible Python expressions are Except PyErr.
  - The Step framework (drain/step.py) is not part of the sources available
    here. Modelled from the spec: Step stores each constructor keyword
    argument as an attribute of the step object, and for a parallel step the
    framework passes the computed results of the input steps to run as
    positional arguments (concat=False) or keyword arguments (concat=True).
-/

namespace DrainAgg

/-- The Python exception kinds this module can raise. -/
inductive PyErr where
  | nameError
  | typeError
  | keyError
  | notImplementedError
  deriving Repr, DecidableEq

/-- A DataFrame row: association list from column name to cell value. -/
abbrev Row := List (String × String)

/-- A pandas DataFrame, reduced to its list of rows. -/
structure DF where
  rows : List Row
  deriving Repr, DecidableEq

/-- Python dict assignment row[k] = v: replace the binding of k if present
(first binding; real dicts and DataFrame column sets have unique keys),
otherwise append a new binding. -/
def setEntry : Row → String → String → Row
  | [], k, v => [(k, v)]
  | (k0, v0) :: r, k, v =>
    if k0 = k then (k, v) :: r else (k0, v0) :: setEntry r k v

/-- df[k] = v: set column k to the literal value v in every row. -/
def DF.setCol (df : DF) (k v : String) : DF :=
  ⟨df.rows.map (fun r => setEntry r k v)⟩

/-- pd.concat: row-wise concatenation of a list of tables, preserving each
source row (no renumbering in this model). -/
def DF.concatList (l : List DF) : DF :=
  ⟨(l.map DF.rows).foldr (fun a b => a ++ b) []⟩

/-- A value of the index mapping: either an opaque index object (such as a
precomputed spatial index, identified by a tag) or a plain string (the
name itself, as produced by the normalization in SimpleAggregation). -/
inductive IdxVal where
  | obj (id : Nat)
  | str (s : String)
  deriving Repr, DecidableEq

/-- An Argument: a Python dict from parameter name to value. -/
abbrev Argument := List (String × String)

/-- argument["index"]: a dict lookup that raises KeyError when absent. -/
def getIndexName (a : Argument) : Except PyErr String :=
  match a.lookup "index" with
  | some v => Except.ok v
  | none => Except.error PyErr.keyError

/-- The runtime shape of self.indexes: SimpleAggregation stores a dict
name -> index, while the SpacetimeAggregation.indexes property builds a
Python LIST of one-entry dicts. -/
inductive PyIndexes where
  | pydict (entries : List (String × IdxVal))
  | pylist (elems : List (List (String × IdxVal)))
  deriving Repr, DecidableEq

/-- self.indexes[name] for a string name: dict lookup succeeds or raises
KeyError; subscripting a Python list with a string raises
TypeError (list indices must be integers, not str). -/
def PyIndexes.subscript : PyIndexes → String → Except PyErr IdxVal
  | .pydict es, k =>
    match es.lookup k with
    | some v => Except.ok v
    | none => Except.error PyErr.keyError
  | .pylist _, _ => Except.error PyErr.typeError

/-- The value of an attribute access c.parallel_kwargs: in AggregationBase,
parallel_kwargs is defined as a plain method (no property decorator), so
the access yields a bound method object; in both subclasses it is a
property, so the access yields the computed list. -/
inductive PyAttr (α : Type) where
  | boundMethod
  | propertyVal (a : α)
  deriving Repr, DecidableEq

/-- Iterating over the attribute value (the loop header
for kwargs in self.parallel_kwargs): iterating a bound method object
raises TypeError; a list iterates to its elements. -/
def iterAttr {α : Type} : PyAttr α → Except PyErr α
  | .boundMethod => Except.error PyErr.typeError
  | .propertyVal a => Except.ok a

/-- AggregationBase.parallel_kwargs is a plain def (its body would raise
NotImplementedError when CALLED), so on an AggregationBase instance the
attribute access in the loop header at line 31 yields the bound method
object, never the list; the body is never invoked. -/
def AggregationBase.parallel_kwargs_attr {K : Type} : PyAttr (List K) :=
  PyAttr.boundMethod

/-- The loop for kwargs in self.parallel_kwargs of
AggregationBase.__init__ (line 31), executed on a parallel AggregationBase
instance: iterate the attribute value, then build one child per kwargs. -/
def AggregationBase.parallelChildren {K C : Type}
    (attr : PyAttr (List K)) (mkChild : K → C) : Except PyErr (List C) :=
  (iterAttr attr).map (fun l => l.foldl (fun acc kw => acc ++ [mkChild kw]) [])

/-- What constructing AggregationBase itself with parallel=True does:
the for loop iterates the bound method object and raises. -/
def AggregationBase.parallelInitOutcome : Except PyErr (List Unit) :=
  AggregationBase.parallelChildren AggregationBase.parallel_kwargs_attr
    (fun (_ : Unit) => ())

/-- The indexes constructor parameter of SimpleAggregation: either a dict
name -> index or a plain collection of names. -/
inductive IndexesParam where
  | pydict (entries : List (String × IdxVal))
  | pylist (names : List String)
  deriving Repr, DecidableEq

/-- Lines 101-103: if indexes was not a dict but a list, make it a dict —
self.indexes = {index: index for index in indexes}. A dict comprehension
keeps one entry per distinct name. A dict parameter is kept as stored by
Step.__init__. -/
def normalizeIndexes : IndexesParam → List (String × IdxVal)
  | .pydict es => es
  | .pylist ns => ns.eraseDups.map (fun n => (n, IdxVal.str n))

/-- Iterating the raw indexes attribute (as stored by Step.__init__, before
the normalization of lines 101-103 runs): a dict yields its keys, a list
its elements. Used by SimpleAggregation.parallel_kwargs, which is
evaluated from inside AggregationBase.__init__, i.e. before lines 101-103. -/
def iterIndexesParam : IndexesParam → List String
  | .pydict es => es.map Prod.fst
  | .pylist ns => ns

/-- SimpleAggregation, lines 116-121: one kwargs dict per index,
{"indexes": [index]} for index in self.indexes. -/
def SimpleAggregation.parallel_kwargs (idxArg : IndexesParam) : List (List String) :=
  (iterIndexesParam idxArg).map (fun n => [n])

/-- A SimpleAggregation instance. I is the type of the elements of
self.inputs (upstream steps for a leaf; child aggregations for a
parallel parent). Fields parallel, concat, target, pfx (source name:
prefix), insert_args, indexesArg mirror the attributes stored by
Step.__init__; indexes is the effective mapping after lines 101-103. -/
structure SimpleAggregation (I : Type) where
  inputs : List I
  parallel : Bool
  concat : Bool
  target : Bool
  pfx : String
  insert_args : List String
  indexesArg : IndexesParam
  indexes : List (String × IdxVal)

/-- SimpleAggregation.__init__ with parallel=False: Step stores the
kwargs; line 24 turns insert_args=None into []; lines 101-103 normalize
a non-dict indexes parameter. -/
def SimpleAggregation.init {I : Type} (inputs : List I) (idxArg : IndexesParam)
    (concat target : Bool) (pfx : String) (insArgs : Option (List String)) :
    SimpleAggregation I :=
  { inputs := inputs
    parallel := false
    concat := concat
    target := target
    pfx := pfx
    insert_args := insArgs.getD []
    indexesArg := idxArg
    indexes := normalizeIndexes idxArg }

/-- SimpleAggregation.__init__ with parallel=True: lines 26-34 replace
self.inputs with one child per parallel_kwargs entry, each child built
with the same class, parallel=False, the original inputs and the same
concat, target, insert_args and prefix; each child receives
indexes=[name], a one-element list. -/
def SimpleAggregation.initParallel {I : Type} (inputs : List I)
    (idxArg : IndexesParam) (concat target : Bool) (pfx : String)
    (insArgs : Option (List String)) :
    SimpleAggregation (SimpleAggregation I) :=
  { inputs := (SimpleAggregation.parallel_kwargs idxArg).foldl
      (fun acc ns => acc ++
        [SimpleAggregation.init inputs (IndexesParam.pylist ns) concat target pfx insArgs]) []
    parallel := true
    concat := concat
    target := target
    pfx := pfx
    insert_args := insArgs.getD []
    indexesArg := idxArg
    indexes := normalizeIndexes idxArg }

/-- SimpleAggregation.arguments (lines 105-107):
[{"index": name} for name in self.indexes] — iterating the dict yields
its keys. -/
def SimpleAggregation.arguments {I : Type} (c : SimpleAggregation I) :
    List Argument :=
  c.indexes.map (fun p => [("index", p.1)])

/-- A spacedelta entry: name -> (index, deltas); the spacedeltas dict is
an association list of these. -/
abbrev Spacedeltas := List (String × IdxVal × List String)

/-- A SpacetimeAggregation instance, fields as stored by Step.__init__. -/
structure SpacetimeAggregation (I : Type) where
  inputs : List I
  parallel : Bool
  concat : Bool
  target : Bool
  pfx : String
  insert_args : List String
  spacedeltas : Spacedeltas
  dates : List String
  date_column : String
  censor_columns : List String

/-- SpacetimeAggregation.__init__ with parallel=False. -/
def SpacetimeAggregation.init {I : Type} (inputs : List I) (sds : Spacedeltas)
    (dates : List String) (dc : String) (cc : List String)
    (concat target : Bool) (pfx : String) (insArgs : Option (List String)) :
    SpacetimeAggregation I :=
  { inputs := inputs
    parallel := false
    concat := concat
    target := target
    pfx := pfx
    insert_args := insArgs.getD []
    spacedeltas := sds
    dates := dates
    date_column := dc
    censor_columns := cc }

/-- SpacetimeAggregation.parallel_kwargs (lines 153-155): one kwargs per
date, {"spacedeltas": self.spacedeltas, "dates": [date]}. -/
def SpacetimeAggregation.parallel_kwargs (sds : Spacedeltas)
    (dates : List String) : List (Spacedeltas × List String) :=
  dates.map (fun d => (sds, [d]))

/-- Python call binding: a call raises TypeError unless every required
parameter of the callee is bound by one of the provided keyword names. -/
def callBinds (provided required : List String) : Bool :=
  required.all (fun p => provided.contains p)

/-- The keyword names the child construction of lines 32-33 provides when
the class is SpacetimeAggregation: the six keywords written in the call
plus the keys of the parallel_kwargs entry, which is
{"spacedeltas": ..., "dates": [date]}. The loop variable kwargs of
line 31 shadows the outer **kwargs of AggregationBase.__init__ that held
date_column and censor_columns, so neither of those names is provided. -/
def spacetimeChildCallKeywords : List String :=
  ["inputs", "parallel", "concat", "target", "insert_args", "prefix",
    "spacedeltas", "dates"]

/-- The parameters of SpacetimeAggregation.__init__ (line 131) that have
no default value, every one of which a call must bind. -/
def spacetimeRequiredParams : List String :=
  ["inputs", "spacedeltas", "dates", "date_column", "censor_columns"]

/-- The keyword names the child construction of lines 32-33 provides when
the class is SimpleAggregation: the six keywords of the call plus the key
of the parallel_kwargs entry {"indexes": [name]}. -/
def simpleChildCallKeywords : List String :=
  ["inputs", "parallel", "concat", "target", "insert_args", "prefix",
    "indexes"]

/-- The parameters of SimpleAggregation.__init__ (line 98) that have no
default value; both are bound by the child call, which is why the
SimpleAggregation children of SimpleAggregation.initParallel are built
without error. -/
def simpleRequiredParams : List String :=
  ["inputs", "indexes"]

/-- The child-construction loop of lines 31-34 when the class is
SpacetimeAggregation. Each iteration evaluates the child call of lines
32-33, which provides only spacetimeChildCallKeywords and therefore
leaves the required date_column and censor_columns parameters of
SpacetimeAggregation.__init__ unbound (callBinds gives false), so the
first iteration raises TypeError and the child body never runs; with no
iterations the accumulated (empty) child list is returned. -/
def spacetimeBuildChildren {I : Type} :
    List (Spacedeltas × List String) → List (SpacetimeAggregation I) →
    Except PyErr (List (SpacetimeAggregation I))
  | [], acc => Except.ok acc
  | _ :: _, _ => Except.error PyErr.typeError

/-- SpacetimeAggregation.__init__ with parallel=True (lines 26-34 with the
subclass property parallel_kwargs): the loop would replace inputs with
the children it builds, but every child call raises TypeError (see
spacetimeBuildChildren), so with a non-empty date list the construction
fails; with an empty date list the loop makes no call and the parent is
built with an empty inputs list. The inputs parameter (which line 32
would forward to a child call) is therefore never consumed, hence the
underscore. -/
def SpacetimeAggregation.initParallel {I : Type} (_inputs : List I)
    (sds : Spacedeltas) (dates : List String) (dc : String) (cc : List String)
    (concat target : Bool) (pfx : String) (insArgs : Option (List String)) :
    Except PyErr (SpacetimeAggregation (SpacetimeAggregation I)) :=
  (spacetimeBuildChildren
      (SpacetimeAggregation.parallel_kwargs sds dates) []).map
    (fun children =>
      { inputs := children
        parallel := true
        concat := concat
        target := target
        pfx := pfx
        insert_args := insArgs.getD []
        spacedeltas := sds
        dates := dates
        date_column := dc
        censor_columns := cc })

/-- SpacetimeAggregation.indexes (lines 139-141):
[{name: value[0]} for name, value in self.spacedeltas.iteritems()] — a
Python LIST of one-entry dicts, not a dict keyed by name. -/
def SpacetimeAggregation.indexes (sds : Spacedeltas) : PyIndexes :=
  PyIndexes.pylist (sds.map (fun p => [(p.1, p.2.1)]))

/-- SpacetimeAggregation.arguments (lines 143-151), as written in the
source. The inner loop header is for delta in spacedeltas[1], but no
name spacedeltas is in scope inside the method (the loop variable is
spacedelta, and self.spacedeltas is an attribute, not a bare name), so
the first time the inner loop header executes — i.e. as soon as both
self.dates and self.spacedeltas are non-empty — Python raises NameError.
When either is empty the loops never reach that statement and the empty
list is returned. -/
def SpacetimeAggregation.arguments (dates : List String) (sds : Spacedeltas) :
    Except PyErr (List Argument) :=
  match dates with
  | [] => Except.ok []
  | _ :: rest =>
    match sds with
    | [] => SpacetimeAggregation.arguments rest sds
    | _ :: _ => Except.error PyErr.nameError

/-- The state a non-parallel instance presents to AggregationBase.run:
its arguments property (which may raise), its indexes, the insert_args
list, the concat flag, and the aggregation itself. agg a idx stands for
self.get_aggregator(**a).aggregate(idx), the opaque Aggregator adapter
call; it is a pure function of the argument and the index since the
inputs and aggregates are fixed for the whole run. -/
structure LeafExec where
  argumentsE : Except PyErr (List Argument)
  indexes : PyIndexes
  insert_args : List String
  concat : Bool
  agg : Argument → IdxVal → DF

/-- Lines 65-68: for k in argument: if k in self.insert_args:
df[k] = argument[k]. Iterating a dict yields each key once with its
value (unique keys). -/
def insertArgsCols (ins : List String) (a : Argument) (df : DF) : DF :=
  a.foldl (fun df kv => if kv.1 ∈ ins then DF.setCol df kv.1 kv.2 else df) df

/-- Lines 63-68 for one argument: build the aggregator, aggregate over
self.indexes[argument["index"]], then insert the insert_args columns. -/
def execOne (c : LeafExec) (a : Argument) : Except PyErr DF := do
  let nameV ← getIndexName a
  let idx ← c.indexes.subscript nameV
  Except.ok (insertArgsCols c.insert_args a (c.agg a idx))

/-- The loop of lines 62-69: one DataFrame per argument, in argument
order; the first raised exception aborts the run. -/
def execArgs (c : LeafExec) : List Argument → Except PyErr (List DF)
  | [] => Except.ok []
  | a :: rest => do
    let df ← execOne c a
    let dfs ← execArgs c rest
    Except.ok (df :: dfs)

/-- Lines 75-78: insert df under name into to_concat, appending to the
existing group when the name is already a key. -/
def toConcatIns (acc : List (String × List DF)) (name : String) (df : DF) :
    List (String × List DF) :=
  if (acc.lookup name).isSome then
    acc.map (fun p => if p.1 = name then (p.1, p.2 ++ [df]) else p)
  else
    acc ++ [(name, [df])]

/-- The grouping loop of lines 72-78: walk the zipped
(argument, DataFrame) pairs, look up the "index" name of each argument and
accumulate to_concat. -/
def buildToConcat : List (Argument × DF) → List (String × List DF) →
    Except PyErr (List (String × List DF))
  | [], acc => Except.ok acc
  | (a, df) :: rest, acc => do
    let name ← getIndexName a
    buildToConcat rest (toConcatIns acc name df)

/-- The result of run on a non-parallel instance: the raw list of
DataFrames (concat=False) or a mapping index name -> combined table
(concat=True, line 79). -/
inductive RunOut where
  | disjoint (dfs : List DF)
  | mapping (m : List (String × DF))
  deriving DecidableEq

/-- AggregationBase.run, lines 59-81, for a non-parallel instance:
enumerate self.arguments, aggregate each, then either return the list
as-is or group by index name and pd.concat each group. -/
def runLeaf (c : LeafExec) : Except PyErr RunOut := do
  let args ← c.argumentsE
  let dfs ← execArgs c args
  if c.concat then
    let groups ← buildToConcat (args.zip dfs) []
    Except.ok (RunOut.mapping (groups.map (fun p => (p.1, DF.concatList p.2))))
  else
    Except.ok (RunOut.disjoint dfs)

/-- The result of run on a parallel instance: the positional arguments
as a tuple or the keyword arguments as a mapping. -/
inductive ParallelOut (R : Type) where
  | tuple (rs : List R)
  | mapping (m : List (String × R))
  deriving DecidableEq

/-- AggregationBase.run, lines 52-57, for a parallel instance: return
kwargs when concat, else args, with no aggregation. The framework passes
the already-computed results of the children here (modelled from the spec). -/
def runParallel {R : Type} (concat : Bool) (args : List R)
    (kwargs : List (String × R)) : ParallelOut R :=
  if concat then ParallelOut.mapping kwargs else ParallelOut.tuple args

/-- The LeafExec state of a non-parallel SimpleAggregation: arguments
never raises and self.indexes is the stored dict. -/
def SimpleAggregation.toExec {I : Type} (c : SimpleAggregation I)
    (agg : Argument → IdxVal → DF) : LeafExec :=
  { argumentsE := Except.ok c.arguments
    indexes := PyIndexes.pydict c.indexes
    insert_args := c.insert_args
    concat := c.concat
    agg := agg }

/-- The LeafExec state of a non-parallel SpacetimeAggregation. -/
def SpacetimeAggregation.toExec {I : Type} (c : SpacetimeAggregation I)
    (agg : Argument → IdxVal → DF) : LeafExec :=
  { argumentsE := SpacetimeAggregation.arguments c.dates c.spacedeltas
    indexes := SpacetimeAggregation.indexes c.spacedeltas
    insert_args := c.insert_args
    concat := c.concat
    agg := agg }

/-- The index name of an argument, on the success path (line 74 reads
argument["index"], which the executor loop already evaluated
successfully for every argument). -/
def argName (a : Argument) : String := (a.lookup "index").getD ""

/-- The (index name, DataFrame) pairs of zip(self.arguments, dfs). -/
def namedPairs (args : List Argument) (dfs : List DF) : List (String × DF) :=
  (args.zip dfs).map (fun p => (argName p.1, p.2))

/-- The tables whose argument bears index name n, in original order. -/
def groupOf (pairs : List (String × DF)) (n : String) : List DF :=
  (pairs.filter (fun p => p.1 == n)).map Prod.snd

/-- The pure content of the to_concat accumulation loop. -/
def groupFold (acc : List (String × List DF)) (pairs : List (String × DF)) :
    List (String × List DF) :=
  pairs.foldl (fun acc p => toConcatIns acc p.1 p.2) acc

/-! Concrete instances used to witness the theorems below. -/

/-- An aggregation adapter producing a fixed two-row table. -/
def aggEx : Argument → IdxVal → DF :=
  fun _ _ => ⟨[[("v", "1")], [("v", "2")]]⟩

/-- A concat-mode leaf: a SimpleAggregation over one index named city. -/
def cExConcat : LeafExec :=
  SimpleAggregation.toExec
    (SimpleAggregation.init ([] : List Unit)
      (IndexesParam.pydict [("city", IdxVal.obj 0)]) true false "" none) aggEx

/-- A disjoint-mode leaf over the indexes city and region. -/
def cExDisjoint : LeafExec :=
  SimpleAggregation.toExec
    (SimpleAggregation.init ([] : List Unit)
      (IndexesParam.pydict [("city", IdxVal.obj 0), ("region", IdxVal.obj 1)])
      false false "" none) aggEx

/-- A leaf with insert_args=["date"], as in spec scenario C. -/
def cExInsert : LeafExec :=
  { argumentsE := Except.ok [[("index", "city"), ("date", "2020-01-01")]]
    indexes := PyIndexes.pydict [("city", IdxVal.obj 0)]
    insert_args := ["date"]
    concat := false
    agg := aggEx }

/-- The argument of spec scenario C used with cExInsert. -/
def aExInsert : Argument := [("index", "city"), ("date", "2020-01-01")]

/-! Helper lemmas about the constructor loop and association lists. -/

theorem foldl_append_singleton {α β : Type} (f : α → β) :
    ∀ (l : List α) (acc : List β),
      l.foldl (fun acc x => acc ++ [f x]) acc = acc ++ l.map f := by
  intro l
  induction l with
  | nil => intro acc; simp
  | cons x xs ih => intro acc; simp [ih]

theorem eraseDups_singleton (n : String) : [n].eraseDups = [n] := by
  simp [List.eraseDups, List.eraseDups.loop, List.elem]

theorem except_bind_ok {ε α β : Type} (a : α) (f : α → Except ε β) :
    (Except.ok a >>= f) = f a := rfl

theorem except_bind_error {ε α β : Type} (e : ε) (f : α → Except ε β) :
    ((Except.error e : Except ε α) >>= f) = Except.error e := rfl

theorem lookup_cons_ne {β : Type} (k : String) (v : β) (r : List (String × β))
    (n : String) (h : n ≠ k) : ((k, v) :: r).lookup n = r.lookup n := by
  rw [List.lookup_cons]
  simp [beq_eq_false_iff_ne.mpr h]

theorem lookup_none_iff {β : Type} (l : List (String × β)) (n : String) :
    l.lookup n = none ↔ n ∉ l.map Prod.fst := by
  induction l with
  | nil => simp
  | cons p r ih =>
    obtain ⟨k, v⟩ := p
    by_cases h : n = k
    · subst h; simp
    · rw [lookup_cons_ne k v r n h]
      simp [ih, h]

theorem lookup_of_mem_nodup {β : Type} (l : List (String × β)) (n : String)
    (b : β) (hnd : (l.map Prod.fst).Nodup) (hm : (n, b) ∈ l) :
    l.lookup n = some b := by
  induction l with
  | nil => cases hm
  | cons p r ih =>
    obtain ⟨k, v⟩ := p
    simp only [List.map_cons, List.nodup_cons] at hnd
    rcases List.mem_cons.mp hm with heq | htail
    · obtain ⟨rfl, rfl⟩ := Prod.mk.injEq .. ▸ heq
      simp
    · have hne : n ≠ k := by
        intro h
        subst h
        exact hnd.1 (List.mem_map_of_mem Prod.fst htail)
      rw [lookup_cons_ne k v r n hne]
      exact ih hnd.2 htail

theorem lookup_setEntry_self (r : Row) (k v : String) :
    (setEntry r k v).lookup k = some v := by
  induction r with
  | nil => simp [setEntry]
  | cons p r ih =>
    obtain ⟨k0, v0⟩ := p
    by_cases h : k0 = k
    · subst h; simp [setEntry]
    · rw [setEntry, if_neg h, lookup_cons_ne k0 v0 _ k (fun he => h he.symm)]
      exact ih

theorem lookup_setEntry_ne (r : Row) (k v n : String) (h : n ≠ k) :
    (setEntry r k v).lookup n = r.lookup n := by
  induction r with
  | nil => simp [setEntry, lookup_cons_ne k v [] n h]
  | cons p r ih =>
    obtain ⟨k0, v0⟩ := p
    by_cases h0 : k0 = k
    · subst h0
      rw [setEntry, if_pos rfl, lookup_cons_ne k0 v r n h,
        lookup_cons_ne k0 v0 r n h]
    · rw [setEntry, if_neg h0]
      by_cases hn : n = k0
      · subst hn; simp
      · rw [lookup_cons_ne k0 v0 _ n hn, lookup_cons_ne k0 v0 r n hn]
        exact ih

theorem setCol_lookup_self (df : DF) (k v : String) :
    ∀ r ∈ (df.setCol k v).rows, r.lookup k = some v := by
  intro r hr
  simp only [DF.setCol, List.mem_map] at hr
  obtain ⟨r0, _, rfl⟩ := hr
  exact lookup_setEntry_self r0 k v

theorem setCol_col_ne (df : DF) (k v n : String) (h : n ≠ k) :
    (df.setCol k v).rows.map (fun r => r.lookup n)
      = df.rows.map (fun r => r.lookup n) := by
  obtain ⟨l⟩ := df
  simp only [DF.setCol, List.map_map]
  have hf : ((fun r : Row => r.lookup n) ∘ fun r => setEntry r k v)
      = fun r : Row => r.lookup n := by
    funext r
    exact lookup_setEntry_ne r k v n h
  rw [hf]

theorem insertArgsCols_cons (ins : List String) (kv : String × String)
    (rest : Argument) (df : DF) :
    insertArgsCols ins (kv :: rest) df
      = insertArgsCols ins rest
          (if kv.1 ∈ ins then df.setCol kv.1 kv.2 else df) := rfl

theorem insertArgsCols_col_not_key (ins : List String) (a : Argument)
    (df : DF) (k : String) (hk : k ∉ a.map Prod.fst) :
    (insertArgsCols ins a df).rows.map (fun r => r.lookup k)
      = df.rows.map (fun r => r.lookup k) := by
  induction a generalizing df with
  | nil => rfl
  | cons kv rest ih =>
    simp only [List.map_cons, List.mem_cons, not_or] at hk
    rw [insertArgsCols_cons, ih _ hk.2]
    by_cases hmem : kv.1 ∈ ins
    · rw [if_pos hmem]
      exact setCol_col_ne df kv.1 kv.2 k hk.1
    · rw [if_neg hmem]

theorem insertArgsCols_col_not_ins (ins : List String) (a : Argument)
    (df : DF) (n : String) (hn : n ∉ ins) :
    (insertArgsCols ins a df).rows.map (fun r => r.lookup n)
      = df.rows.map (fun r => r.lookup n) := by
  induction a generalizing df with
  | nil => rfl
  | cons kv rest ih =>
    rw [insertArgsCols_cons, ih _]
    by_cases hmem : kv.1 ∈ ins
    · rw [if_pos hmem]
      refine setCol_col_ne df kv.1 kv.2 n (fun he => hn ?_)
      rw [he]; exact hmem
    · rw [if_neg hmem]

theorem map_eq_forall_const {α β : Type} {l l' : List α} {f : α → β} {c : β}
    (h : l.map f = l'.map f) (h' : ∀ x ∈ l', f x = c) : ∀ x ∈ l, f x = c := by
  intro x hx
  have hm : f x ∈ l.map f := List.mem_map_of_mem f hx
  rw [h] at hm
  obtain ⟨y, hy, he⟩ := List.mem_map.mp hm
  rw [← he]
  exact h' y hy

theorem insertArgsCols_col_mem (ins : List String) (a : Argument) (df : DF)
    (hnd : (a.map Prod.fst).Nodup) (k v : String) (hmem : (k, v) ∈ a)
    (hins : k ∈ ins) :
    ∀ r ∈ (insertArgsCols ins a df).rows, r.lookup k = some v := by
  induction a generalizing df with
  | nil => cases hmem
  | cons kv rest ih =>
    obtain ⟨k1, v1⟩ := kv
    simp only [List.map_cons, List.nodup_cons] at hnd
    rw [insertArgsCols_cons]
    rcases List.mem_cons.mp hmem with heq | htail
    · obtain ⟨rfl, rfl⟩ := Prod.mk.injEq .. ▸ heq
      rw [if_pos hins]
      exact map_eq_forall_const
        (insertArgsCols_col_not_key ins rest (df.setCol k v) k hnd.1)
        (setCol_lookup_self df k v)
    · exact ih _ hnd.2 htail

theorem lookup_map_ite {β : Type} (acc : List (String × β)) (m : String)
    (f : β → β) (n : String) :
    ((acc.map (fun p => if p.1 = m then (p.1, f p.2) else p)).lookup n)
      = if n = m then (acc.lookup m).map f else acc.lookup n := by
  induction acc with
  | nil => by_cases h : n = m <;> simp [h]
  | cons p r ih =>
    obtain ⟨k, l⟩ := p
    simp only [List.map_cons]
    by_cases hkm : k = m
    · subst hkm
      by_cases hnk : n = k
      · subst hnk
        simp
      · have hupd : (if ((k, l) : String × β).1 = k then (k, f l) else (k, l))
            = (k, f l) := by simp
        rw [hupd, lookup_cons_ne k (f l) _ n hnk, ih, if_neg hnk, if_neg hnk,
          lookup_cons_ne k l r n hnk]
    · have hupd : (if ((k, l) : String × β).1 = m then (k, f l) else (k, l))
          = (k, l) := by simp [hkm]
      rw [hupd]
      by_cases hnk : n = k
      · subst hnk
        simp [if_neg hkm]
      · rw [lookup_cons_ne k l _ n hnk, ih]
        by_cases hnm : n = m
        · subst hnm
          rw [if_pos rfl, if_pos rfl,
            lookup_cons_ne k l r n (fun h => hkm h.symm)]
        · rw [if_neg hnm, if_neg hnm, lookup_cons_ne k l r n hnk]

theorem lookup_append_single {β : Type} (acc : List (String × β)) (m : String)
    (xs : β) (n : String) :
    ((acc ++ [(m, xs)]).lookup n)
      = match acc.lookup n with
        | some l => some l
        | none => if n = m then some xs else none := by
  rw [List.lookup_append]
  cases h : acc.lookup n with
  | some l => simp [Option.or]
  | none =>
    by_cases hnm : n = m
    · subst hnm; simp [Option.or]
    · rw [lookup_cons_ne m xs [] n hnm]
      simp [Option.or, hnm]

theorem toConcatIns_lookup (acc : List (String × List DF)) (m : String)
    (df : DF) (n : String) :
    (toConcatIns acc m df).lookup n
      = if n = m then some ((acc.lookup m).getD [] ++ [df])
        else acc.lookup n := by
  unfold toConcatIns
  cases h : acc.lookup m with
  | some l =>
    simp only [h, Option.isSome_some, if_pos trivial, if_true]
    rw [lookup_map_ite acc m (fun l => l ++ [df]) n, h]
    by_cases hnm : n = m <;> simp [hnm]
  | none =>
    simp only [h, Option.isSome_none, Bool.false_eq_true, if_false]
    rw [lookup_append_single acc m [df] n]
    by_cases hnm : n = m
    · subst hnm; simp [h]
    · cases hx : acc.lookup n <;> simp [hnm]

theorem toConcatIns_keys (acc : List (String × List DF)) (m : String)
    (df : DF) :
    (toConcatIns acc m df).map Prod.fst
      = if (acc.lookup m).isSome then acc.map Prod.fst
        else acc.map Prod.fst ++ [m] := by
  unfold toConcatIns
  cases h : (acc.lookup m).isSome with
  | true =>
    simp only [if_pos trivial, if_true]
    rw [List.map_map]
    apply List.map_congr_left
    intro p _
    by_cases hp : p.1 = m <;> simp [hp]
  | false => simp

theorem groupOf_cons (m : String) (df : DF) (rest : List (String × DF))
    (n : String) :
    groupOf ((m, df) :: rest) n
      = if m = n then df :: groupOf rest n else groupOf rest n := by
  unfold groupOf
  by_cases h : m = n
  · subst h; simp [List.filter_cons]
  · simp [List.filter_cons, h]

theorem groupFold_lookup :
    ∀ (pairs : List (String × DF)) (acc : List (String × List DF))
      (n : String),
      (groupFold acc pairs).lookup n
        = match acc.lookup n with
          | some l => some (l ++ groupOf pairs n)
          | none =>
            if n ∈ pairs.map Prod.fst then some (groupOf pairs n) else none := by
  intro pairs
  induction pairs with
  | nil =>
    intro acc n
    cases h : acc.lookup n <;> simp [groupFold, groupOf, h]
  | cons p rest ih =>
    intro acc n
    obtain ⟨m, df⟩ := p
    have hstep : groupFold acc ((m, df) :: rest)
        = groupFold (toConcatIns acc m df) rest := rfl
    rw [hstep, ih (toConcatIns acc m df) n, toConcatIns_lookup acc m df n,
      groupOf_cons m df rest n]
    by_cases hnm : n = m
    · subst hnm
      simp only [if_pos rfl, if_pos rfl]
      cases h : acc.lookup n with
      | some l => simp
      | none => simp
    · have hmn : ¬m = n := fun h => hnm h.symm
      simp only [if_neg hnm, if_neg hmn, List.map_cons, List.mem_cons]
      cases h : acc.lookup n with
      | some l => simp
      | none =>
        simp only []
        by_cases hmem : n ∈ rest.map Prod.fst
        · simp [hmem, hnm]
        · simp [hmem, hnm]

theorem groupFold_keys_nodup :
    ∀ (pairs : List (String × DF)) (acc : List (String × List DF)),
      ((acc.map Prod.fst).Nodup) → (((groupFold acc pairs).map Prod.fst).Nodup) := by
  intro pairs
  induction pairs with
  | nil => intro acc h; exact h
  | cons p rest ih =>
    intro acc h
    obtain ⟨m, df⟩ := p
    have hstep : groupFold acc ((m, df) :: rest)
        = groupFold (toConcatIns acc m df) rest := rfl
    rw [hstep]
    apply ih
    rw [toConcatIns_keys acc m df]
    cases hx : (acc.lookup m).isSome with
    | true => simpa using h
    | false =>
      have hnm : m ∉ acc.map Prod.fst := by
        rw [← lookup_none_iff (β := List DF)]
        cases hy : acc.lookup m with
        | some l => rw [hy] at hx; cases hx
        | none => rfl
      simp [List.nodup_append, h, hnm]

theorem lookup_map_values {β γ : Type} (l : List (String × β)) (f : β → γ)
    (n : String) :
    ((l.map (fun p => (p.1, f p.2))).lookup n) = (l.lookup n).map f := by
  induction l with
  | nil => simp
  | cons p r ih =>
    obtain ⟨k, xs⟩ := p
    by_cases h : n = k
    · subst h; simp
    · simp only [List.map_cons]
      rw [lookup_cons_ne k (f xs) _ n h, lookup_cons_ne k xs r n h, ih]

theorem keys_map_values {β γ : Type} (l : List (String × β)) (f : β → γ) :
    ((l.map (fun p => (p.1, f p.2))).map Prod.fst) = l.map Prod.fst := by
  rw [List.map_map]
  rfl

theorem concatList_cons (d : DF) (rest : List DF) :
    (DF.concatList (d :: rest)).rows = d.rows ++ (DF.concatList rest).rows := rfl

theorem concatList_length (l : List DF) :
    (DF.concatList l).rows.length = (l.map (fun d => d.rows.length)).sum := by
  induction l with
  | nil => rfl
  | cons d rest ih => simp [concatList_cons, ih]

theorem buildToConcat_eq :
    ∀ (pairs : List (Argument × DF)) (acc : List (String × List DF)),
      (∀ p ∈ pairs, ∃ v, p.1.lookup "index" = some v) →
      buildToConcat pairs acc
        = Except.ok (groupFold acc (pairs.map (fun p => (argName p.1, p.2)))) := by
  intro pairs
  induction pairs with
  | nil => intro acc _; rfl
  | cons p rest ih =>
    intro acc h
    obtain ⟨a, df⟩ := p
    obtain ⟨v, hv⟩ := h (a, df) (List.mem_cons_self _ _)
    have hname : getIndexName a = Except.ok v := by
      simp [getIndexName, hv]
    have harg : argName a = v := by
      simp [argName, hv]
    show (do
        let name ← getIndexName a
        buildToConcat rest (toConcatIns acc name df))
      = _
    rw [hname, except_bind_ok, ih _ (fun q hq => h q (List.mem_cons_of_mem _ hq))]
    simp [harg, groupFold]

theorem mem_groupOf_self (pairs : List (String × DF)) (p : String × DF)
    (hp : p ∈ pairs) : p.2 ∈ groupOf pairs p.1 := by
  unfold groupOf
  apply List.mem_map_of_mem
  rw [List.mem_filter]
  exact ⟨hp, by simp⟩

theorem execArgs_ok_spec (c : LeafExec) :
    ∀ (args : List Argument) (dfs : List DF),
      execArgs c args = Except.ok dfs →
      dfs.length = args.length
        ∧ ∀ i (h1 : i < args.length) (h2 : i < dfs.length),
            execOne c (args.get ⟨i, h1⟩) = Except.ok (dfs.get ⟨i, h2⟩) := by
  intro args
  induction args with
  | nil =>
    intro dfs h
    simp only [execArgs] at h
    obtain rfl : ([] : List DF) = dfs := by
      cases h; rfl
    exact ⟨rfl, by intro i h1 h2; cases h1⟩
  | cons a rest ih =>
    intro dfs h
    simp only [execArgs] at h
    cases hx : execOne c a with
    | error e => rw [hx] at h; cases h
    | ok df =>
      rw [hx] at h
      cases hr : execArgs c rest with
      | error e => rw [hr] at h; cases h
      | ok dfs0 =>
        rw [hr] at h
        obtain rfl : df :: dfs0 = dfs := by
          cases h; rfl
        obtain ⟨hlen, hget⟩ := ih dfs0 hr
        refine ⟨by simp [hlen], ?_⟩
        intro i h1 h2
        match i with
        | 0 => exact hx
        | Nat.succ j =>
          exact hget j (Nat.lt_of_succ_lt_succ h1) (Nat.lt_of_succ_lt_succ h2)

theorem execArgs_ok_indexName (c : LeafExec) :
    ∀ (args : List Argument) (dfs : List DF),
      execArgs c args = Except.ok dfs →
      ∀ a ∈ args, ∃ v, a.lookup "index" = some v := by
  intro args
  induction args with
  | nil => intro dfs _ a ha; cases ha
  | cons a0 rest ih =>
    intro dfs h
    simp only [execArgs] at h
    cases hx : execOne c a0 with
    | error e => rw [hx] at h; cases h
    | ok df =>
      rw [hx] at h
      cases hr : execArgs c rest with
      | error e => rw [hr] at h; cases h
      | ok dfs0 =>
        intro a ha
        rcases List.mem_cons.mp ha with rfl | htail
        · simp only [execOne, getIndexName] at hx
          cases hl : a.lookup "index" with
          | none => rw [hl] at hx; cases hx
          | some v => exact ⟨v, rfl⟩
        · exact ih dfs0 hr a htail

/-! Claim theorems. -/

/-- C1: the spec says SpacetimeAggregation.arguments emits the full
cartesian product of dates x spacedeltas x deltas. The code (line 148)
reads `for delta in spacedeltas[1]`, referencing the undefined bare name
spacedeltas instead of the loop variable spacedelta, so on any
configuration with a non-empty date list and a non-empty spacedeltas dict
the property raises NameError and produces no arguments at all. Evaluated
here at dates=["2020-01-01"], spacedeltas={"city": (idx, ["1y"])}. -/
theorem spacetime_arguments_raises_name_error :
    SpacetimeAggregation.arguments ["2020-01-01"]
      [("city", IdxVal.obj 0, ["1y"])] = Except.error PyErr.nameError := rfl

/-- C2: the spec says the index name of every Argument resolves in the Index
mapping via self.indexes[argument["index"]]. For SpacetimeAggregation the
indexes property (line 141) builds a Python LIST of one-entry dicts, so
subscripting it with the string "city" raises TypeError instead of
returning the index object. -/
theorem spacetime_index_lookup_raises_type_error :
    SpacetimeAggregation.indexes [("city", IdxVal.obj 0, ["1y"])]
        = PyIndexes.pylist [[("city", IdxVal.obj 0)]]
      ∧ PyIndexes.subscript
          (SpacetimeAggregation.indexes [("city", IdxVal.obj 0, ["1y"])])
          "city" = Except.error PyErr.typeError :=
  ⟨rfl, rfl⟩

/-- C4: the spec says a parallel construction builds one parallel=False
child per parallel_kwargs entry and replaces its inputs with that
sequence. For SpacetimeAggregation the child call of lines 32-33 provides
only spacetimeChildCallKeywords (the loop variable kwargs of line 31
shadows the outer **kwargs that held date_column and censor_columns), so
the required date_column and censor_columns parameters of
SpacetimeAggregation.__init__ are unbound: the first child call raises
TypeError and no children ever replace inputs. For SimpleAggregation the
provided keywords bind every required parameter, so its children are
built. Evaluated at dates=["2020-01-01"],
spacedeltas={"city": (idx, ["1y"])}. -/
theorem spacetime_parallel_init_raises_type_error :
    SpacetimeAggregation.initParallel (I := Unit) []
        [("city", IdxVal.obj 0, ["1y"])] ["2020-01-01"] "date" []
        true false "" none = Except.error PyErr.typeError
      ∧ callBinds spacetimeChildCallKeywords spacetimeRequiredParams = false
      ∧ "date_column" ∈ spacetimeRequiredParams
      ∧ "date_column" ∉ spacetimeChildCallKeywords
      ∧ callBinds simpleChildCallKeywords simpleRequiredParams = true :=
  ⟨rfl, by decide, by decide, by decide, by decide⟩

/-- C5: the partition guarantee has no realization for
SpacetimeAggregation: a parallel construction raises TypeError at the
first child call (missing date_column and censor_columns), so no child
configurations — hence no child argument sequences — ever exist; and
independently the full argument sequence of the parent raises NameError
(the line 148 bug). Neither side of the claimed multiset equation is
produced. Evaluated at dates=["2020-01-01"],
spacedeltas={"city": (idx, ["1y"])}. -/
theorem spacetime_parallel_partition_unrealizable :
    SpacetimeAggregation.initParallel (I := Unit) []
        [("city", IdxVal.obj 0, ["1y"])] ["2020-01-01"] "date" []
        true false "" none = Except.error PyErr.typeError
      ∧ SpacetimeAggregation.arguments ["2020-01-01"]
          [("city", IdxVal.obj 0, ["1y"])] = Except.error PyErr.nameError :=
  ⟨rfl, rfl⟩

/-- C8: run on a parallel instance is pure pass-through: with concat=True
it returns its keyword arguments (the mapping of keyword name to child
result), with concat=False its positional arguments (the tuple of child
results), and performs no aggregation. -/
theorem parallel_run_is_passthrough {R : Type} (args : List R)
    (kwargs : List (String × R)) :
    runParallel true args kwargs = ParallelOut.mapping kwargs
      ∧ runParallel false args kwargs = ParallelOut.tuple args :=
  ⟨rfl, rfl⟩

/-- C9: the spec says constructing a base configuration with parallel=True
fails with a "not implemented" error. In the source,
AggregationBase.parallel_kwargs is a plain method (no property decorator,
line 45), so the loop header of line 31 iterates the bound method object
and raises TypeError; the NotImplementedError body is never executed. -/
theorem base_parallel_init_raises_type_error :
    AggregationBase.parallelInitOutcome = Except.error PyErr.typeError
      ∧ PyErr.typeError ≠ PyErr.notImplementedError :=
  ⟨rfl, by decide⟩

/-- C10: a non-dict indexes parameter is normalized to the identity
mapping name -> name; a parallel SimpleAggregation over a dict parameter
gives each child indexes=[name] (a one-element list of the key), so each
mapping of each child sends the name to the name itself, not to the original
index object. -/
theorem simple_indexes_identity_normalization {I : Type} (inputs : List I)
    (ns : List String) (es : List (String × IdxVal)) (concat target : Bool)
    (pfx : String) (insArgs : Option (List String)) :
    ((SimpleAggregation.init inputs (IndexesParam.pylist ns) concat target pfx
        insArgs).indexes = ns.eraseDups.map (fun n => (n, IdxVal.str n)))
    ∧ ((SimpleAggregation.initParallel inputs (IndexesParam.pydict es) concat
          target pfx insArgs).inputs
        = es.map (fun p => SimpleAggregation.init inputs
            (IndexesParam.pylist [p.1]) concat target pfx insArgs))
    ∧ (∀ ch ∈ (SimpleAggregation.initParallel inputs (IndexesParam.pydict es)
          concat target pfx insArgs).inputs,
        ∃ n, ch.indexesArg = IndexesParam.pylist [n]
          ∧ ch.indexes = [(n, IdxVal.str n)]) := by
  refine ⟨rfl, ?_, ?_⟩
  · simp [SimpleAggregation.initParallel, foldl_append_singleton,
      SimpleAggregation.parallel_kwargs, iterIndexesParam]
  · intro ch hch
    simp only [SimpleAggregation.initParallel, foldl_append_singleton,
      List.nil_append, List.mem_map, SimpleAggregation.parallel_kwargs,
      iterIndexesParam] at hch
    obtain ⟨ns0, ⟨n, _, rfl⟩, rfl⟩ := hch
    refine ⟨n, rfl, ?_⟩
    simp [SimpleAggregation.init, normalizeIndexes, eraseDups_singleton]

/-- C6: for an argument a and a name n, if n is a parameter of a and is
in insert_args then every row of the Result Table for a carries column n
with value a[n] (overwriting any pre-existing column); if n is not in
insert_args the executor writes no column n — column n of the Result
Table is exactly column n of the raw aggregator output. -/
theorem insert_args_columns (c : LeafExec) (a : Argument) (df : DF)
    (hnd : (a.map Prod.fst).Nodup) (hex : execOne c a = Except.ok df) :
    (∀ k v, (k, v) ∈ a → k ∈ c.insert_args →
        ∀ r ∈ df.rows, r.lookup k = some v)
      ∧ ∀ n, n ∉ c.insert_args → ∃ nameV idx,
          a.lookup "index" = some nameV
            ∧ c.indexes.subscript nameV = Except.ok idx
            ∧ df.rows.map (fun r => r.lookup n)
                = (c.agg a idx).rows.map (fun r => r.lookup n) := by
  cases h1 : a.lookup "index" with
  | none =>
    simp [execOne, getIndexName, h1, except_bind_error, except_bind_ok] at hex
  | some nameV =>
    cases h2 : c.indexes.subscript nameV with
    | error e =>
      simp [execOne, getIndexName, h1, h2, except_bind_error,
        except_bind_ok] at hex
    | ok idx =>
      have hdf : df = insertArgsCols c.insert_args a (c.agg a idx) := by
        simp only [execOne, getIndexName, h1, h2, except_bind_ok,
          Except.ok.injEq] at hex
        exact hex.symm
      subst hdf
      constructor
      · intro k v hmem hins
        exact insertArgsCols_col_mem c.insert_args a (c.agg a idx) hnd k v
          hmem hins
      · intro n hn
        exact ⟨nameV, idx, rfl, h2,
          insertArgsCols_col_not_ins c.insert_args a (c.agg a idx) n hn⟩

/-- C6 witness: scenario C style input — insert_args=["date"],
argument {index: city, date: 2020-01-01}, fixed two-row aggregator
output; both rows of the result carry the literal date column, and the
column v is untouched. -/
theorem insert_args_columns_witness :
    ((aExInsert.map Prod.fst).Nodup
        ∧ execOne cExInsert aExInsert = Except.ok
            ⟨[[("v", "1"), ("date", "2020-01-01")],
              [("v", "2"), ("date", "2020-01-01")]]⟩)
      ∧ ((∀ k v, (k, v) ∈ aExInsert → k ∈ cExInsert.insert_args →
            ∀ r ∈ (DF.mk [[("v", "1"), ("date", "2020-01-01")],
              [("v", "2"), ("date", "2020-01-01")]]).rows,
              r.lookup k = some v)
          ∧ ∀ n, n ∉ cExInsert.insert_args → ∃ nameV idx,
              aExInsert.lookup "index" = some nameV
                ∧ cExInsert.indexes.subscript nameV = Except.ok idx
                ∧ (DF.mk [[("v", "1"), ("date", "2020-01-01")],
                    [("v", "2"), ("date", "2020-01-01")]]).rows.map
                      (fun r => r.lookup n)
                    = (cExInsert.agg aExInsert idx).rows.map
                        (fun r => r.lookup n)) :=
  ⟨⟨by decide, by rfl⟩,
    insert_args_columns cExInsert aExInsert
      ⟨[[("v", "1"), ("date", "2020-01-01")],
        [("v", "2"), ("date", "2020-01-01")]]⟩ (by decide) (by rfl)⟩

/-- C3: in concat mode (concat=True), run on a non-parallel instance
returns a mapping from index name to one combined table; the keys are
distinct; the combined table of each index name is the row-wise
concatenation of exactly the Result Tables of the Arguments bearing that
name, in their original relative order (groupOf filters the zipped
sequence in order); every (name, table) pair lands in exactly one group;
and each combined row count is the sum of the member row counts. -/
theorem run_concat_partition (c : LeafExec) (args : List Argument)
    (dfs : List DF) (hc : c.concat = true) (ha : c.argumentsE = Except.ok args)
    (he : execArgs c args = Except.ok dfs) :
    ∃ m : List (String × DF),
      runLeaf c = Except.ok (RunOut.mapping m)
        ∧ (m.map Prod.fst).Nodup
        ∧ (∀ n, m.lookup n =
            if n ∈ (namedPairs args dfs).map Prod.fst
            then some (DF.concatList (groupOf (namedPairs args dfs) n))
            else none)
        ∧ (∀ p ∈ namedPairs args dfs,
            p.1 ∈ m.map Prod.fst ∧ p.2 ∈ groupOf (namedPairs args dfs) p.1)
        ∧ (∀ n df, (n, df) ∈ m →
            df.rows.length
              = ((groupOf (namedPairs args dfs) n).map
                  (fun d => d.rows.length)).sum) := by
  have hidx : ∀ p ∈ args.zip dfs, ∃ v, p.1.lookup "index" = some v := by
    intro p hp
    exact execArgs_ok_indexName c args dfs he p.1 (List.of_mem_zip hp).1
  have hbuild := buildToConcat_eq (args.zip dfs) [] hidx
  have hpairs : ((args.zip dfs).map (fun p => (argName p.1, p.2)))
      = namedPairs args dfs := rfl
  rw [hpairs] at hbuild
  refine ⟨(groupFold [] (namedPairs args dfs)).map
    (fun p => (p.1, DF.concatList p.2)), ?_, ?_, ?_, ?_, ?_⟩
  · simp [runLeaf, ha, he, hc, except_bind_ok, hbuild]
  · rw [keys_map_values]
    exact groupFold_keys_nodup (namedPairs args dfs) [] (by simp)
  · intro n
    rw [lookup_map_values, groupFold_lookup (namedPairs args dfs) [] n]
    simp only [List.lookup_nil]
    by_cases hmem : n ∈ (namedPairs args dfs).map Prod.fst
    · simp [hmem]
    · simp [hmem]
  · intro p hp
    constructor
    · rw [keys_map_values]
      by_contra hnot
      have hnone : (groupFold [] (namedPairs args dfs)).lookup p.1 = none :=
        (lookup_none_iff _ p.1).mpr hnot
      rw [groupFold_lookup (namedPairs args dfs) [] p.1] at hnone
      simp only [List.lookup_nil] at hnone
      rw [if_pos (List.mem_map_of_mem Prod.fst hp)] at hnone
      cases hnone
    · exact mem_groupOf_self (namedPairs args dfs) p hp
  · intro n df hm
    have hnd : (((groupFold [] (namedPairs args dfs)).map
        (fun p => (p.1, DF.concatList p.2))).map Prod.fst).Nodup := by
      rw [keys_map_values]
      exact groupFold_keys_nodup (namedPairs args dfs) [] (by simp)
    have hlk := lookup_of_mem_nodup _ n df hnd hm
    rw [lookup_map_values, groupFold_lookup (namedPairs args dfs) [] n] at hlk
    simp only [List.lookup_nil] at hlk
    by_cases hmem : n ∈ (namedPairs args dfs).map Prod.fst
    · rw [if_pos hmem] at hlk
      simp only [Option.map_some', Option.some.injEq] at hlk
      rw [← hlk]
      exact concatList_length _
    · rw [if_neg hmem] at hlk
      cases hlk

/-- C3 witness: a concat-mode SimpleAggregation over the single index
city; the returned mapping has one key, city, whose table is the
concatenation of the single group member. -/
theorem run_concat_partition_witness :
    (cExConcat.concat = true
        ∧ cExConcat.argumentsE = Except.ok [[("index", "city")]]
        ∧ execArgs cExConcat [[("index", "city")]]
            = Except.ok [⟨[[("v", "1")], [("v", "2")]]⟩])
      ∧ ∃ m : List (String × DF),
          runLeaf cExConcat = Except.ok (RunOut.mapping m)
            ∧ (m.map Prod.fst).Nodup
            ∧ (∀ n, m.lookup n =
                if n ∈ (namedPairs [[("index", "city")]]
                    [⟨[[("v", "1")], [("v", "2")]]⟩]).map Prod.fst
                then some (DF.concatList (groupOf
                  (namedPairs [[("index", "city")]]
                    [⟨[[("v", "1")], [("v", "2")]]⟩]) n))
                else none)
            ∧ (∀ p ∈ namedPairs [[("index", "city")]]
                  [⟨[[("v", "1")], [("v", "2")]]⟩],
                p.1 ∈ m.map Prod.fst
                  ∧ p.2 ∈ groupOf (namedPairs [[("index", "city")]]
                      [⟨[[("v", "1")], [("v", "2")]]⟩]) p.1)
            ∧ (∀ n df, (n, df) ∈ m →
                df.rows.length
                  = ((groupOf (namedPairs [[("index", "city")]]
                      [⟨[[("v", "1")], [("v", "2")]]⟩]) n).map
                        (fun d => d.rows.length)).sum) :=
  ⟨⟨by rfl, by rfl, by rfl⟩,
    run_concat_partition cExConcat [[("index", "city")]]
      [⟨[[("v", "1")], [("v", "2")]]⟩] (by rfl) (by rfl) (by rfl)⟩

/-- C7: in disjoint mode (concat=False) run returns the list of Result
Tables as-is: one table per Argument, positionally aligned with the
Argument sequence produced by the expander. -/
theorem run_disjoint_positional (c : LeafExec) (args : List Argument)
    (dfs : List DF) (hc : c.concat = false) (ha : c.argumentsE = Except.ok args)
    (he : execArgs c args = Except.ok dfs) :
    runLeaf c = Except.ok (RunOut.disjoint dfs)
      ∧ dfs.length = args.length
      ∧ ∀ i (h1 : i < args.length) (h2 : i < dfs.length),
          execOne c (args.get ⟨i, h1⟩) = Except.ok (dfs.get ⟨i, h2⟩) := by
  obtain ⟨hlen, hget⟩ := execArgs_ok_spec c args dfs he
  refine ⟨?_, hlen, hget⟩
  simp [runLeaf, ha, he, hc, except_bind_ok]

/-- C7 witness: a disjoint SimpleAggregation over city and region returns
the two tables positionally. -/
theorem run_disjoint_positional_witness :
    (cExDisjoint.concat = false
        ∧ cExDisjoint.argumentsE
            = Except.ok [[("index", "city")], [("index", "region")]]
        ∧ execArgs cExDisjoint [[("index", "city")], [("index", "region")]]
            = Except.ok [⟨[[("v", "1")], [("v", "2")]]⟩,
                ⟨[[("v", "1")], [("v", "2")]]⟩])
      ∧ (runLeaf cExDisjoint = Except.ok (RunOut.disjoint
            [⟨[[("v", "1")], [("v", "2")]]⟩, ⟨[[("v", "1")], [("v", "2")]]⟩])
          ∧ ([(⟨[[("v", "1")], [("v", "2")]]⟩ : DF),
              ⟨[[("v", "1")], [("v", "2")]]⟩]).length
              = [[("index", "city")], [("index", "region")]].length
          ∧ ∀ i (h1 : i < ([[("index", "city")], [("index", "region")]] :
                List Argument).length)
              (h2 : i < ([(⟨[[("v", "1")], [("v", "2")]]⟩ : DF),
                ⟨[[("v", "1")], [("v", "2")]]⟩]).length),
              execOne cExDisjoint
                  (([[("index", "city")], [("index", "region")]] :
                    List Argument).get ⟨i, h1⟩)
                = Except.ok (([(⟨[[("v", "1")], [("v", "2")]]⟩ : DF),
                    ⟨[[("v", "1")], [("v", "2")]]⟩]).get ⟨i, h2⟩)) :=
  ⟨⟨by rfl, by rfl, by rfl⟩,
    run_disjoint_positional cExDisjoint
      [[("index", "city")], [("index", "region")]]
      [⟨[[("v", "1")], [("v", "2")]]⟩, ⟨[[("v", "1")], [("v", "2")]]⟩]
      (by rfl) (by rfl) (by rfl)⟩

end DrainAgg
